import Mathlib

/-
  Verification development for the folder synchronizer (src/main.py).

  Paths are modelled as `List Char` (POSIX, separator '/').  The helpers
  below are shallow embeddings of the Python standard-library functions the
  synchronizer calls (posixpath.join, posixpath.normpath, posixpath.abspath,
  posixpath.commonpath, str.__contains__, str.index), followed by embeddings
  of the synchronizer's own methods.
-/

/-- Convert a string literal to the `List Char` path representation. -/
def s2l (s : String) : List Char := s.data

/-- `p.startswith('/')` — POSIX absolute-path test (posixpath.isabs). -/
def isAbs (p : List Char) : Bool := p.head? = some '/'

/-- `a.startswith(b)` on character lists / generic lists:
`leadsAny n h` is true iff `n` is an initial run of `h`. -/
def leadsAny {α : Type} [BEq α] : List α → List α → Bool
  | [], _ => true
  | _ :: _, [] => false
  | a :: as, b :: bs => a == b && leadsAny as bs

/-- Python `needle in hay` for strings: substring containment test. -/
def strIn (needle : List Char) : List Char → Bool
  | [] => leadsAny needle []
  | c :: rest => leadsAny needle (c :: rest) || strIn needle rest

/-- posixpath.join for two components:
`if b.startswith(sep): path = b elif not path or path.endswith(sep):
path += b else: path += sep + b`. -/
def pjoin (a b : List Char) : List Char :=
  if isAbs b then b
  else if a = [] ∨ a.getLast? = some '/' then a ++ b
  else a ++ '/' :: b

/-- `"x/y".split("/")` — splits on '/', keeping empty pieces. -/
def splitSlash : List Char → List (List Char)
  | [] => [[]]
  | c :: rest =>
    if c = '/' then [] :: splitSlash rest
    else
      match splitSlash rest with
      | [] => [[c]]
      | g :: gs => (c :: g) :: gs

/-- `sep.join(comps)` — intercalate '/' between path components. -/
def joinComps : List (List Char) → List Char
  | [] => []
  | [c] => c
  | c :: rest => c ++ '/' :: joinComps rest

/-- The component filter used by posixpath.commonpath:
drop empty components and single-dot components. -/
def goodComps (p : List Char) : List (List Char) :=
  (splitSlash p).filter (fun c => ¬(c = [] ∨ c = ['.']))

/-- Longest common initial run of two component lists (posixpath.commonpath
takes the common initial run of `min` and `max` of the split paths, which for
two paths equals their pairwise common initial run). -/
def commonLead : List (List Char) → List (List Char) → List (List Char)
  | x :: xs, y :: ys => if x = y then x :: commonLead xs ys else []
  | _, _ => []

/-- posixpath.commonpath for two absolute paths (the only way the
synchronizer calls it: both arguments are absolute). -/
def commonpath2 (a b : List Char) : List Char :=
  '/' :: joinComps (commonLead (goodComps a) (goodComps b))

/-- One step of posixpath.normpath's component loop. -/
def normStep (slashes : Nat) (acc : List (List Char)) (comp : List Char) :
    List (List Char) :=
  if comp = [] ∨ comp = ['.'] then acc
  else if ¬(comp = s2l "..") ∨ (slashes = 0 ∧ acc = []) ∨
      (¬(acc = []) ∧ acc.getLast? = some (s2l "..")) then acc ++ [comp]
  else if ¬(acc = []) then acc.dropLast else acc

/-- posixpath.normpath. -/
def normpathL (p : List Char) : List Char :=
  if p = [] then ['.']
  else
    let slashes : Nat :=
      if leadsAny (s2l "//") p ∧ ¬(leadsAny (s2l "///") p = true) then 2
      else if leadsAny (s2l "/") p then 1 else 0
    let comps := (splitSlash p).foldl (normStep slashes) []
    let res := List.replicate slashes '/' ++ joinComps comps
    if res = [] then ['.'] else res

/-- posixpath.abspath, with the process working directory as a parameter:
`if not isabs(path): path = join(getcwd(), path); return normpath(path)`. -/
def abspathL (cwd p : List Char) : List Char :=
  if isAbs p then normpathL p else normpathL (pjoin cwd p)

/-- Does the list begin with the marker `"/./"`?  (Used to model
`str.index("/./")` in `_detranslate_symlink_target_path`.) -/
def isMarkerHead (l : List Char) : Bool :=
  match l with
  | a :: b :: c :: _ => a == '/' && b == '.' && c == '/'
  | _ => false

/-- Index of the first occurrence of `"/./"`, `none` when absent
(`str.index` raises ValueError in that case). -/
def markerIdx : List Char → Option Nat
  | [] => none
  | c :: rest =>
    if isMarkerHead (c :: rest) then some 0 else (markerIdx rest).map (· + 1)

/-- `_detranslate_symlink_target_path` (src/main.py lines 508-530):
`symlink_target_path[symlink_target_path.index("/./") + 3:]`, with the
ValueError on a missing marker modelled as `none`. -/
def detranslateL (p : List Char) : Option (List Char) :=
  (markerIdx p).map (fun i => p.drop (i + 3))

/-- The synthesized non-normalized absolute target
(src/main.py lines 466-469):
`os.path.join(os.path.abspath(src), ".", symlink_target_path)`. -/
def targetAbsNonNormal (cwd srcDir raw : List Char) : List Char :=
  pjoin (pjoin (abspathL cwd srcDir) (s2l ".")) raw

/-- `_get_symlink_target_path` (src/main.py lines 428-506).
Parameters:
`dangle` is `self.dangle` (True = keep-dangling, the constructor default);
`sourceReal` is `self.source_real`; `lexists` models `os.path.lexists`;
`cwd` is the process working directory (consumed by `os.path.abspath`);
`raw` is `symlink_target_path`; `absT` is `symlink_target_path_absolute`;
`srcDir` is `src`.  Returns `none` for the "no valid target" sentinel. -/
def getSymlinkTargetPath (dangle : Bool) (sourceReal : List Char)
    (lexists : List Char → Bool) (cwd raw absT srcDir : List Char) :
    Option (List Char) :=
  let dangling := ¬(lexists absT = true)
  if dangle then
    some raw
  else if ¬dangling then
    if sourceReal = commonpath2 sourceReal absT then some raw
    else some (targetAbsNonNormal cwd srcDir raw)
  else
    none

/-- Reference definition following the spec's §4.4 four-case description
verbatim (for comparison against `getSymlinkTargetPath`): dangling+drop →
sentinel; dangling+keep → raw; existing target inside source → raw; existing
target outside source → the synthesized marker path, regardless of the
dangling policy.  `dropDangling` is the spec's `policy == drop-dangling`. -/
def specTranslateRefCases (dropDangling : Bool) (sourceReal : List Char)
    (lexists : List Char → Bool) (cwd raw absT srcDir : List Char) :
    Option (List Char) :=
  if ¬(lexists absT = true) then
    if dropDangling then none else some raw
  else if sourceReal = commonpath2 sourceReal absT then some raw
  else some (targetAbsNonNormal cwd srcDir raw)

/-- The four-case description amended to match the code: the synthesized
marker path is produced only under the drop-dangling policy; under
keep-dangling the raw target is returned in every case. -/
def amendedTranslate (dangle : Bool) (sourceReal : List Char)
    (lexists : List Char → Bool) (cwd raw absT srcDir : List Char) :
    Option (List Char) :=
  if ¬(lexists absT = true) then
    if dangle then some raw else none
  else if sourceReal = commonpath2 sourceReal absT then some raw
  else if dangle then some raw
  else some (targetAbsNonNormal cwd srcDir raw)

/-- An `os.path.lexists` environment in which every path exists. -/
def lexAll : List Char → Bool := fun _ => true

/-- The symlink branch of `_compare_entry` (src/main.py lines 184-215).
`raw` is `os.readlink(entry.path)` on the source side; `dstLink` is
`os.readlink(os.path.join(dst, entry.name))`, with the caught `OSError`
modelled as `none`.  The expected target is computed through the translator
exactly as in the code:
`self._get_symlink_target_path(source_link_path,
os.path.abspath(os.path.join(src, source_link_path)), entry, src, dst)`. -/
def compareEntrySymlink (dangle : Bool) (sourceReal : List Char)
    (lexists : List Char → Bool) (cwd raw srcDir : List Char)
    (dstLink : Option (List Char)) : Bool :=
  let target := getSymlinkTargetPath dangle sourceReal lexists cwd raw
    (abspathL cwd (pjoin srcDir raw)) srcDir
  dstLink == target && target.isSome

/-- Outcome of the junction handler's guard (src/main.py lines 296-323). -/
inductive JunctionAct where
  | skipCyclic
  | skipMissing
  | recurse
deriving DecidableEq, Repr

/-- The decision logic of `_handle_junction` (src/main.py lines 296-323):
`real_path` is `os.path.realpath(entry.path)`, `srcReal` is
`os.path.realpath(src)`, `targetExists` is `os.path.exists(real_path)`.
The first test is the Python expression
`real_path in os.path.realpath(src)` — a string substring test. -/
def handleJunctionAct (realPath srcReal : List Char) (targetExists : Bool) :
    JunctionAct :=
  if strIn realPath srcReal then JunctionAct.skipCyclic
  else if ¬(targetExists = true) then JunctionAct.skipMissing
  else JunctionAct.recurse

/-- Canonical-path containment: `a` equals or is an ancestor of `b`
(component-wise, not a string test). -/
def isAncestorOrSelfL (a b : List Char) : Bool :=
  leadsAny (goodComps a) (goodComps b)

/-- The junction guard as the claim states it: recurse iff the canonical
target exists and is neither equal to nor an ancestor of the canonical
source directory being walked. -/
def specJunctionRecurse (realPath srcReal : List Char) (targetExists : Bool) :
    Bool :=
  targetExists && ¬(isAncestorOrSelfL realPath srcReal = true)

/-- The object at a path, as seen by the `os.path` predicates `_remove`
consults.  For a symlink, `targetIsDir` records whether following the link
reaches a directory (`os.path.isdir` follows symlinks). -/
inductive PathObj where
  | pfile
  | plink (targetIsDir : Bool)
  | pdir
deriving DecidableEq, Repr

/-- `os.path.isdir` (follows symlinks). -/
def isdirFollow : PathObj → Bool
  | PathObj.pdir => true
  | PathObj.plink b => b
  | PathObj.pfile => false

/-- `os.path.islink`. -/
def islinkP : PathObj → Bool
  | PathObj.plink _ => true
  | _ => false

/-- Action chosen by `_remove` (src/main.py lines 539-548). -/
inductive RmAct where
  | rmtree
  | unlinkOnly
deriving DecidableEq, Repr

/-- `_remove`'s dispatch:
`if os.path.isdir(path) and not os.path.islink(path): shutil.rmtree(path)
else: os.remove(path)`. -/
def removeAct (o : PathObj) : RmAct :=
  if isdirFollow o && !(islinkP o) then RmAct.rmtree else RmAct.unlinkOnly

/-- Events the synchronizer logs at info/warning/error level:
`Create(path)`, `Copy(src,dst)`, `Remove(path)`, warnings, errors. -/
inductive Event where
  | create
  | copy
  | remove
  | warn
  | err
deriving DecidableEq, Repr

/-- `true` for events that are not a `Create`/`Copy`/`Remove` write event. -/
def notCCR : Event → Bool
  | Event.create => false
  | Event.copy => false
  | Event.remove => false
  | Event.warn => true
  | Event.err => true

/-- A source-side directory entry as the synchronizer classifies it
(`os.DirEntry`):
`sfile` — regular file (content, stat metadata);
`slink` — symlink: the raw target read by `os.readlink` plus the result of
`_get_symlink_target_path` for it (its translation inputs — raw target,
absolute target, source root, policy, `os.path.lexists` — are properties of
the unchanged source and of the run configuration, hence fixed across the
two passes considered here);
`sdir` — directory with children;
`sjunction` — junction: `valid` is the result of the `_handle_junction`
guard (canonical target exists and the `real_path in realpath(src)` test is
false), `children` the listing reached through it;
`sother` — unclassifiable entry; `copyResult` is `some c` when
`shutil.copy2` would succeed producing content `c`, `none` when it raises. -/
inductive SNode where
  | sfile (content : String) (meta : Nat)
  | slink (raw : List Char) (translated : Option (List Char)) (meta : Nat)
  | sdir (meta : Nat) (children : List (String × SNode))
  | sjunction (valid : Bool) (children : List (String × SNode))
  | sother (copyResult : Option String) (meta : Nat)
deriving Repr

/-- A replica-side filesystem object.  A pass only ever writes regular
files, symlinks and directories into the replica. -/
inductive DNode where
  | dfile (content : String) (meta : Nat)
  | dlink (target : List Char) (meta : Nat)
  | ddir (meta : Nat) (children : List (String × DNode))
deriving Repr

/-- `os.mkdir` gives a fresh directory default metadata (nothing in the
code copies metadata onto directories). -/
def defaultMeta : Nat := 0

/-- `os.readlink` on a replica object: raw target of a symlink, `OSError`
(modelled `none`) otherwise. -/
def readlinkD : DNode → Option (List Char)
  | DNode.dlink t _ => some t
  | _ => none

/-- `_compare_entry` (src/main.py lines 165-226) for a source entry whose
name exists in the destination listing, with `d` the destination object.
Directory entries (and junctions, which report `is_dir(follow_symlinks=
False)` true) return False; symlinks compare the destination's raw link
target with the translated expected target and require the latter to be
non-sentinel; everything else runs `filecmp.cmp(..., shallow=False)`, which
returns False unless both sides are regular files and is a full byte
comparison otherwise.  A replica-side symlink under the filecmp branch is
modelled as compare-false (filecmp stats it, and in this model replica links
are opaque). -/
def compareEntry : SNode → DNode → Bool
  | SNode.sdir _ _, _ => false
  | SNode.sjunction _ _, _ => false
  | SNode.slink _ translated _, d =>
    readlinkD d == translated && translated.isSome
  | SNode.sfile c _, DNode.dfile c' _ => c == c'
  | SNode.sfile _ _, _ => false
  | SNode.sother _ _, _ => false

/-- Steps 1-2 of `_sync_folder` (src/main.py lines 109-115): make sure the
destination is a real directory.  Returns the directory's (kept) metadata,
its existing children, and the events emitted:
missing → `_mkdir` (Create); present but not a real directory (file, or a
symlink whether or not it resolves to a directory) → warning, `_remove`,
`_mkdir`. -/
def ensureDir : Option DNode → Nat × List (String × DNode) × List Event
  | some (DNode.ddir m ch) => (m, ch, [])
  | some _ => (defaultMeta, [], [Event.warn, Event.remove, Event.create])
  | none => (defaultMeta, [], [Event.create])

/-- Names of a source listing (`os.listdir(src)`). -/
def namesS (ch : List (String × SNode)) : List String :=
  ch.map (fun p => p.1)

/-- Look up a destination child by name. -/
def lookupD (n : String) : List (String × DNode) → Option DNode
  | [] => none
  | (m, d) :: rest => if m = n then some d else lookupD n rest

/-- The removal pass of `_sync_folder` (src/main.py lines 125-127): every
destination entry whose name is absent from the source listing is removed
(one `Remove` event each; `_remove` logs once even for a subtree). -/
def removalPass (srcNames : List String) :
    List (String × DNode) → List (String × DNode) × List Event
  | [] => ([], [])
  | (m, d) :: rest =>
    let r := removalPass srcNames rest
    if srcNames.contains m then ((m, d) :: r.1, r.2)
    else (r.1, Event.remove :: r.2)

mutual

/-- The per-entry loop of `_sync_folder` (src/main.py lines 129-163) over
the source listing, given the destination children that survived the
removal pass: an entry whose name exists in the destination is compared
first and skipped when equivalent; otherwise `_sync_item` runs.  Returns
the resulting destination children (in source order) and the events. -/
def syncEntries (odd : Bool) : List (String × SNode) → List (String × DNode) →
    List (String × DNode) × List Event
  | [], _ => ([], [])
  | (n, s) :: rest, kept =>
    let step :=
      match lookupD n kept with
      | some d =>
        if compareEntry s d then (some d, ([] : List Event))
        else syncItem odd s (some d)
      | none => syncItem odd s none
    let r := syncEntries odd rest kept
    ((match step.1 with
      | some c => (n, c) :: r.1
      | none => r.1),
     step.2 ++ r.2)

/-- `_sync_item` (src/main.py lines 228-280) plus the per-kind handlers,
for one source entry, given the destination object currently at that name
(`none` when absent).  Returns the destination object afterwards and the
events:
- junction (`_handle_junction`, lines 282-323): always one warning
  ("attempting recurse"); an invalid junction (cyclic by the substring
  test, or nonexistent canonical target) warns again and removes any
  destination object, no recursion; a valid one recurses as a directory
  via `_sync_folder`;
- directory (lines 244-265): an existing destination directory is recursed
  into; a destination file is removed first (then `_sync_folder` creates);
  a destination symlink is treated as not-a-directory by the recursive
  `_sync_folder`, which warns, removes and recreates (replica links are
  modelled as not resolving to traversable directories); absence creates;
- otherwise (lines 267-280): any existing destination object is removed
  first, then `_handle_symlink` / `_handle_file` / `_handle_unknown_file`
  runs.  A sentinel translation creates nothing (warning); symlink and
  file copies log one Copy; an unknown entry is skipped with a warning
  unless `odd`, in which case the copy either succeeds (Copy) or its
  exception is caught and logged. -/
def syncItem (odd : Bool) : SNode → Option DNode → Option DNode × List Event
  | SNode.sjunction valid ch, dcur =>
    if valid then
      let pre := ensureDir dcur
      let rm := removalPass (namesS ch) pre.2.1
      let res := syncEntries odd ch rm.1
      (some (DNode.ddir pre.1 res.1),
       Event.warn :: (pre.2.2 ++ rm.2 ++ res.2))
    else
      (none,
       [Event.warn, Event.warn] ++
         (if dcur.isSome then [Event.remove] else []))
  | SNode.sdir _ ch, dcur =>
    let pre : Nat × List (String × DNode) × List Event :=
      match dcur with
      | some (DNode.ddir dm dch) => (dm, dch, [])
      | some (DNode.dfile _ _) =>
        (defaultMeta, [], [Event.remove, Event.create])
      | some (DNode.dlink _ _) =>
        (defaultMeta, [], [Event.warn, Event.remove, Event.create])
      | none => (defaultMeta, [], [Event.create])
    let rm := removalPass (namesS ch) pre.2.1
    let res := syncEntries odd ch rm.1
    (some (DNode.ddir pre.1 res.1), pre.2.2 ++ rm.2 ++ res.2)
  | SNode.sfile c m, dcur =>
    ((some (DNode.dfile c m)),
     (if dcur.isSome then [Event.remove] else []) ++ [Event.copy])
  | SNode.slink _ translated m, dcur =>
    let rm : List Event := if dcur.isSome then [Event.remove] else []
    (match translated with
     | some t => (some (DNode.dlink t m), rm ++ [Event.copy])
     | none => (none, rm ++ [Event.warn]))
  | SNode.sother copyResult m, dcur =>
    let rm : List Event := if dcur.isSome then [Event.remove] else []
    if odd then
      match copyResult with
      | some c =>
        (some (DNode.dfile c m), rm ++ [Event.warn, Event.copy])
      | none => (none, rm ++ [Event.warn, Event.err])
    else (none, rm ++ [Event.warn])

end

/-- `_sync_folder` (src/main.py lines 102-163): ensure the destination is a
directory, run the removal pass, then the per-entry loop.  `srcCh` is the
listed source directory, `dst` the object at the destination path. -/
def syncFolder (odd : Bool) (srcCh : List (String × SNode))
    (dst : Option DNode) : DNode × List Event :=
  let pre := ensureDir dst
  let rm := removalPass (namesS srcCh) pre.2.1
  let res := syncEntries odd srcCh rm.1
  (DNode.ddir pre.1 res.1, pre.2.2 ++ rm.2 ++ res.2)

/-- Does a source entry produce a replica object when synchronized?
(`sfile` and `sdir` always do; a symlink only when the translation is not
the sentinel; a junction only when its guard lets it recurse; an unknown
entry only under `odd` and when the copy succeeds.) -/
def presentB (odd : Bool) : SNode → Bool
  | SNode.sfile _ _ => true
  | SNode.slink _ translated _ => translated.isSome
  | SNode.sdir _ _ => true
  | SNode.sjunction valid _ => valid
  | SNode.sother copyResult _ => odd && copyResult.isSome

mutual

/-- The replica object `d` is the synchronized image of the source entry
`s`: identical file contents, identical raw link target (for a non-sentinel
translation), recursively mirrored children for directories and valid
junctions, the copied content for an unknown entry under `odd`.  Metadata
is deliberately not constrained: an equivalent pre-existing replica object
is kept with whatever metadata it already had, and directories never get
metadata copied at all. -/
def nodeMirrorsB (odd : Bool) : SNode → DNode → Bool
  | SNode.sfile c _, DNode.dfile c' _ => c = c'
  | SNode.slink _ (some t) _, DNode.dlink t' _ => t = t'
  | SNode.sdir _ ch, DNode.ddir _ dch => chMirrorsB odd ch dch
  | SNode.sjunction true ch, DNode.ddir _ dch => chMirrorsB odd ch dch
  | SNode.sother (some c) _, DNode.dfile c' _ => odd && c = c'
  | _, _ => false

/-- The replica children `dch` are exactly the synchronized images of the
source children, in source order, with absent images skipped. -/
def chMirrorsB (odd : Bool) :
    List (String × SNode) → List (String × DNode) → Bool
  | [], [] => true
  | [], _ :: _ => false
  | (n, s) :: rest, dch =>
    if presentB odd s then
      match dch with
      | (n', d) :: dtl =>
        n' = n && nodeMirrorsB odd s d && chMirrorsB odd rest dtl
      | [] => false
    else chMirrorsB odd rest dch

end

/-- Is `n` among the names of the source listing? -/
def hasNameS (n : String) : List (String × SNode) → Bool
  | [] => false
  | (m, _) :: rest => m = n || hasNameS n rest

mutual

/-- Well-formed source entry: the children listings of directories and
junctions have no duplicate names (a real directory listing never does). -/
def wfNode : SNode → Bool
  | SNode.sdir _ ch => wfCh ch
  | SNode.sjunction _ ch => wfCh ch
  | _ => true

/-- Well-formed source listing: pairwise distinct names, children
well-formed. -/
def wfCh : List (String × SNode) → Bool
  | [] => true
  | (n, s) :: rest => !(hasNameS n rest) && wfNode s && wfCh rest

end

mutual

/-- No unknown-kind (`sother`) entry anywhere in this source entry. -/
def noOtherNode : SNode → Bool
  | SNode.sother _ _ => false
  | SNode.sdir _ ch => noOtherCh ch
  | SNode.sjunction _ ch => noOtherCh ch
  | _ => true

/-- No unknown-kind entry anywhere in this source listing. -/
def noOtherCh : List (String × SNode) → Bool
  | [] => true
  | (_, s) :: rest => noOtherNode s && noOtherCh rest

end

mutual

/-- Every directory in this replica object has the default (`os.mkdir`)
metadata. -/
def allDirsDefaultD : DNode → Bool
  | DNode.ddir m ch => m = defaultMeta && allDirsDefaultCh ch
  | _ => true

/-- Every directory among these replica children has the default
metadata. -/
def allDirsDefaultCh : List (String × DNode) → Bool
  | [] => true
  | (_, d) :: rest => allDirsDefaultD d && allDirsDefaultCh rest

end

/-- Metadata of the directory child named `n` of a replica directory. -/
def childDirMeta (d : DNode) (n : String) : Option Nat :=
  match d with
  | DNode.ddir _ ch =>
    match lookupD n ch with
    | some (DNode.ddir m _) => some m
    | _ => none
  | _ => none

/-- Exceptions relevant to the synchronizer's error handling. -/
inductive PyExc where
  | fileNotFound
  | permission
  | fileExists
  | osError
deriving DecidableEq, Repr

/-- The non-symlink branch of `_compare_entry` (src/main.py lines 217-226):
`filecmp.cmp` runs inside a `try` that catches only `FileNotFoundError`
(yielding "not same"); any other exception raised by the comparison
propagates out of the comparator.  `cmpResult` is the outcome of
`filecmp.cmp(entry.path, os.path.join(dst, entry.name), shallow=False)`. -/
def compareFileE (cmpResult : Except PyExc Bool) : Except PyExc Bool :=
  match cmpResult with
  | Except.error PyExc.fileNotFound => Except.ok false
  | r => r

/-- A source entry together with the outcome of the filesystem operation
its handler performs, for modelling exception flow through the
`_sync_folder` entry loop:
`xfile fails` — regular file whose `shutil.copy2` raises `PermissionError`
when `fails`;
`xsymlink fails` — symlink whose `os.symlink` raises `OSError` when
`fails`;
`xunknown fails` — unknown-kind entry whose `shutil.copy2` raises when
`fails`. -/
inductive EntryX where
  | xfile (fails : Bool)
  | xsymlink (fails : Bool)
  | xunknown (fails : Bool)
deriving DecidableEq, Repr

/-- One entry through `_sync_item` and its handler, with exceptions made
explicit:
`_handle_file` (src/main.py lines 382-385) wraps `self._copy` in no
`try`/`except`, so a `PermissionError` from `shutil.copy2` propagates;
`_handle_symlink` (lines 357-380) catches `OSError`, logs an error and
skips; `_handle_unknown_file` (lines 410-426) under `odd` catches any
exception, logs an error and skips (and without `odd` only warns). -/
def processItemE (odd : Bool) : EntryX → Except PyExc (List Event)
  | EntryX.xfile fails =>
    if fails then Except.error PyExc.permission
    else Except.ok [Event.copy]
  | EntryX.xsymlink fails =>
    Except.ok (if fails then [Event.err] else [Event.copy])
  | EntryX.xunknown fails =>
    if odd then
      Except.ok (if fails then [Event.warn, Event.err]
                 else [Event.warn, Event.copy])
    else Except.ok [Event.warn]

/-- The `_sync_folder` entry loop (src/main.py lines 129-163) with
exception flow explicit: the loop body has no `try`/`except`, so the first
exception a handler lets escape aborts the whole pass (remaining entries
are not processed). -/
def syncEntriesE (odd : Bool) : List EntryX → Except PyExc (List Event)
  | [] => Except.ok []
  | e :: rest =>
    match processItemE odd e with
    | Except.error x => Except.error x
    | Except.ok evs =>
      match syncEntriesE odd rest with
      | Except.error x => Except.error x
      | Except.ok more => Except.ok (evs ++ more)

/-- What `shutil.rmtree`, applied at a path, does to the tree the object at
that path points to when the object is a symlink: rmtree follows the
starting path, so it would erase the target directory's contents. -/
def emptiedDir : DNode → DNode
  | DNode.ddir m _ => DNode.ddir m []
  | d => d

/-- A path object together with the directory tree its link target (if
any) lives in, elsewhere in the filesystem. -/
structure RmWorld where
  obj : PathObj
  target : DNode

/-- Semantics of `_remove` on a world: the object at the path is deleted
either way; the link target's tree is erased only if `rmtree` were chosen
for a symlink (which `removeAct` prevents). -/
def rmSem (w : RmWorld) : Option PathObj × DNode :=
  match removeAct w.obj with
  | RmAct.unlinkOnly => (none, w.target)
  | RmAct.rmtree =>
    (none, if islinkP w.obj then emptiedDir w.target else w.target)

/-- Every directory in this optional replica object has the default
metadata (`none` trivially). -/
def allDirsDefaultO : Option DNode → Bool
  | some d => allDirsDefaultD d
  | none => true

/-- The outcome of `_sync_item` on a source entry, related to that entry:
either a present, mirroring replica object (for entries that produce one)
or nothing (for entries that do not). -/
def mirrorsO (odd : Bool) (s : SNode) : Option DNode → Bool
  | some d => presentB odd s && nodeMirrorsB odd s d
  | none => !presentB odd s

/-- Kinds for which `_sync_item` recurses (directory and junction) rather
than rewriting the destination object. -/
def recursiveKind : SNode → Bool
  | SNode.sdir _ _ => true
  | SNode.sjunction _ _ => true
  | _ => false

/-- The situations in which `_sync_item` runs during a pass over an
already-mirrored replica: either on a recursive kind whose mirrored replica
object is present (directories and junctions always re-dispatch), or on an
entry that produces no replica object and has none. -/
def pass2Hyp (odd : Bool) (s : SNode) : Option DNode → Bool
  | some d => recursiveKind s && presentB odd s && nodeMirrorsB odd s d
  | none => !presentB odd s

/-- The destination children `kept` agree with the mirror of `srcCh` under
name lookup: every source entry that produces a replica object finds its
mirrored object at its name, and every one that does not finds nothing. -/
def keptMatches (odd : Bool) :
    List (String × SNode) → List (String × DNode) → Bool
  | [], _ => true
  | (n, s) :: rest, kept =>
    (match lookupD n kept with
     | some d => presentB odd s && nodeMirrorsB odd s d
     | none => !presentB odd s) && keptMatches odd rest kept

/-- Shape of a directory prefix that keeps the inserted marker
recoverable: no occurrence of `"/./"` anywhere and no trailing `"/."`
(so that appending `"/./"` puts the first marker occurrence exactly at the
end of the prefix). -/
def cleanA : List Char → Bool
  | [] => true
  | c :: rest =>
    !(isMarkerHead (c :: rest)) && !((c :: rest) == ['/', '.']) &&
      cleanA rest

/-- Does the list begin with `"./"`? -/
def startsDotSlash (l : List Char) : Bool :=
  match l with
  | a :: b :: _ => a == '.' && b == '/'
  | _ => false

/-
  Theorems.
-/

/-- C1, counterexample: at a symlink in source directory "/s" with raw
target "../x" whose canonical absolute target "/x" exists and lies outside
the canonical source root "/s", under the keep-dangling policy
(`dangle = true`, i.e. `policy = keep-dangling`, `dropDangling = false`)
the code returns the raw target unchanged while the spec's four-case
reference definition returns the synthesized marker path — so the claim
that the outside case applies "regardless of the dangling policy" is false
on the code. -/
theorem C1_counterexample_keep_policy_outside :
    getSymlinkTargetPath true (s2l "/s") lexAll (s2l "/c") (s2l "../x")
        (s2l "/x") (s2l "/s") = some (s2l "../x") ∧
    specTranslateRefCases false (s2l "/s") lexAll (s2l "/c") (s2l "../x")
        (s2l "/x") (s2l "/s") = some (s2l "/s/./../x") ∧
    ¬(getSymlinkTargetPath true (s2l "/s") lexAll (s2l "/c") (s2l "../x")
        (s2l "/x") (s2l "/s") =
      specTranslateRefCases false (s2l "/s") lexAll (s2l "/c") (s2l "../x")
        (s2l "/x") (s2l "/s")) := by
  decide

/-- C1, amended: `_get_symlink_target_path` returns exactly the four-case
reference definition amended so that the synthesized marker path for an
existing outside-source target is produced only under the drop-dangling
policy; under keep-dangling the raw target is returned unchanged in every
case.  (The sentinel cases and the inside case are as the claim states.) -/
theorem C1_translator_matches_amended_cases (dangle : Bool)
    (sourceReal : List Char) (lexists : List Char → Bool)
    (cwd raw absT srcDir : List Char) :
    getSymlinkTargetPath dangle sourceReal lexists cwd raw absT srcDir =
      amendedTranslate dangle sourceReal lexists cwd raw absT srcDir := by
  unfold getSymlinkTargetPath amendedTranslate
  by_cases h1 : lexists absT = true <;> cases dangle <;> simp [h1]

/-- C9: under the keep-dangling policy (`self.dangle = true`, the
constructor default `dont_dangle=False`), the translator returns the raw
target unchanged for every input — whatever the existence of the target and
whether it lies inside or outside the source root — so the sentinel and the
synthesized marker path can only arise under drop-dangling. -/
theorem C9_keep_policy_returns_raw (sourceReal : List Char)
    (lexists : List Char → Bool) (cwd raw absT srcDir : List Char) :
    getSymlinkTargetPath true sourceReal lexists cwd raw absT srcDir =
      some raw := rfl

/-- C3: the symlink branch of `_compare_entry` returns true exactly when
the destination's raw link target (read without following; `none` when
unreadable) equals the translator's expected target and that expected
target is not the "no valid target" sentinel. -/
theorem C3_compare_symlink_iff (dangle : Bool) (sourceReal : List Char)
    (lexists : List Char → Bool) (cwd raw srcDir : List Char)
    (dstLink : Option (List Char)) :
    compareEntrySymlink dangle sourceReal lexists cwd raw srcDir dstLink =
      true ↔
    ∃ t, getSymlinkTargetPath dangle sourceReal lexists cwd raw
        (abspathL cwd (pjoin srcDir raw)) srcDir = some t ∧
      dstLink = some t := by
  unfold compareEntrySymlink
  cases htgt : getSymlinkTargetPath dangle sourceReal lexists cwd raw
      (abspathL cwd (pjoin srcDir raw)) srcDir <;>
    cases dstLink <;> simp [htgt]

/-- C2 (code bug): the junction guard uses the Python string expression
`real_path in os.path.realpath(src)` — a substring test, not canonical-path
containment.  At a junction whose canonical target "/data/src" exists and
is a sibling-name substring of the canonical source directory
"/data/srcdir" (neither equal to it nor an ancestor of it), the code
classifies the junction as cyclic and skips it, while the claimed
containment test mandates recursion. -/
theorem C2_junction_guard_substring_divergence :
    handleJunctionAct (s2l "/data/src") (s2l "/data/srcdir") true =
      JunctionAct.skipCyclic ∧
    specJunctionRecurse (s2l "/data/src") (s2l "/data/srcdir") true =
      true := by
  decide

/-- C10: `_remove` on a symbolic link — whether or not the link's target
resolves to a directory — always chooses single-object `os.remove`
(deleting only the link and leaving the target tree untouched), and
`shutil.rmtree` is chosen exactly for real, non-link directories. -/
theorem C10_remove_unlinks_links_only :
    (∀ (b : Bool) (t : DNode),
      rmSem ⟨PathObj.plink b, t⟩ = (none, t)) ∧
    (∀ o : PathObj, removeAct o = RmAct.rmtree ↔ o = PathObj.pdir) := by
  constructor
  · intro b t
    cases b <;> rfl
  · intro o
    cases o with
    | pfile => simp [removeAct, isdirFollow, islinkP]
    | plink b => cases b <;> simp [removeAct, isdirFollow, islinkP]
    | pdir => simp [removeAct, isdirFollow, islinkP]

/-- C5, counterexample: a pass over two regular files whose first copy
raises `PermissionError` aborts with that exception — the second entry is
never processed — because the entry loop and `_handle_file` catch
nothing. -/
theorem C5_counterexample_file_error_aborts :
    syncEntriesE false [EntryX.xfile true, EntryX.xfile false] =
      Except.error PyExc.permission := rfl

/-- C5, amended: entry-level failures are caught and the entry skipped
only for the operations that are wrapped in a handler's `try`: a failing
symlink creation and a failing unknown-entry copy are logged and the pass
continues with the remaining entries, but an exception while copying a
regular file propagates and aborts the pass. -/
theorem C5_amended_catch_scope :
    (∀ (odd : Bool) (rest : List EntryX),
      syncEntriesE odd (EntryX.xsymlink true :: rest) =
        (syncEntriesE odd rest).map (fun evs => Event.err :: evs)) ∧
    (∀ rest : List EntryX,
      syncEntriesE true (EntryX.xunknown true :: rest) =
        (syncEntriesE true rest).map
          (fun evs => Event.warn :: Event.err :: evs)) ∧
    (∀ (odd : Bool) (rest : List EntryX),
      syncEntriesE odd (EntryX.xfile true :: rest) =
        Except.error PyExc.permission) := by
  refine ⟨?_, ?_, ?_⟩
  · intro odd rest
    cases h : syncEntriesE odd rest <;>
      simp [syncEntriesE, processItemE, h, Except.map]
  · intro rest
    cases h : syncEntriesE true rest <;>
      simp [syncEntriesE, processItemE, h, Except.map]
  · intro odd rest
    rfl

/-- C7, counterexample: a `PermissionError` raised while comparing file
contents escapes `_compare_entry` (only `FileNotFoundError` is caught), so
"any read error yields false" is false on the code. -/
theorem C7_counterexample_permission_escapes :
    compareFileE (Except.error PyExc.permission) =
      Except.error PyExc.permission ∧
    ¬(compareFileE (Except.error PyExc.permission) = Except.ok false) := by
  exact ⟨rfl, fun h => Except.noConfusion h⟩

/-- C7, amended: for a regular-file entry present on both sides the
comparator returns the result of the full byte-for-byte comparison, a
`FileNotFoundError` during the comparison yields false, and any other read
error (permission denial, generic OS errors) propagates out of the
comparator instead of yielding false. -/
theorem C7_amended_file_compare :
    (∀ b : Bool, compareFileE (Except.ok b) = Except.ok b) ∧
    compareFileE (Except.error PyExc.fileNotFound) = Except.ok false ∧
    compareFileE (Except.error PyExc.permission) =
      Except.error PyExc.permission ∧
    compareFileE (Except.error PyExc.osError) =
      Except.error PyExc.osError ∧
    compareFileE (Except.error PyExc.fileExists) =
      Except.error PyExc.fileExists ∧
    (∀ (c c' : String) (m m' : Nat),
      compareEntry (SNode.sfile c m) (DNode.dfile c' m') = true ↔ c = c') := by
  refine ⟨fun b => rfl, rfl, rfl, rfl, rfl, fun c c' m m' => ?_⟩
  simp [compareEntry]

/-- C6, counterexample: synchronizing a source directory "d" with metadata
5 into an empty replica leaves the replica directory with the default
`os.mkdir` metadata — nothing in the code copies metadata onto
directories, so the claimed post-pass invariant fails. -/
theorem C6_counterexample_dir_meta_not_copied :
    childDirMeta ((syncFolder false [("d", SNode.sdir 5 [])] none).1) "d" =
      some defaultMeta ∧
    ¬(childDirMeta ((syncFolder false [("d", SNode.sdir 5 [])] none).1)
        "d" = some 5) := by
  decide

/-- C4, counterexample: with the attempt-copy policy for unknown entries
(`odd = true`), a source tree holding one unknown-kind entry whose copy
succeeds (no symlinks, no junctions, hence no cycles) makes the second
pass re-remove and re-copy it — the comparator always says "not same" for
unknown kinds — so the second pass is not free of Create/Copy/Remove
events. -/
theorem C4_counterexample_unknown_entry_rewrites :
    (syncFolder true [("o", SNode.sother (some "x") 0)]
        (some (syncFolder true [("o", SNode.sother (some "x") 0)]
          none).1)).2 =
      [Event.remove, Event.warn, Event.copy] ∧
    ((syncFolder true [("o", SNode.sother (some "x") 0)]
        (some (syncFolder true [("o", SNode.sother (some "x") 0)]
          none).1)).2).all notCCR = false := by
  decide

theorem lookupD_allDirsDefault :
    ∀ (kept : List (String × DNode)) (n : String) (d : DNode),
      allDirsDefaultCh kept = true → lookupD n kept = some d →
      allDirsDefaultD d = true := by
  intro kept
  induction kept with
  | nil => intro n d _ hl; exact absurd hl (by simp [lookupD])
  | cons p rest ih =>
    intro n d hall hl
    obtain ⟨m, dd⟩ := p
    simp only [allDirsDefaultCh, Bool.and_eq_true] at hall
    simp only [lookupD] at hl
    by_cases hmn : m = n
    · rw [if_pos hmn] at hl
      injection hl with hl
      exact hl ▸ hall.1
    · rw [if_neg hmn] at hl
      exact ih n d hall.2 hl

theorem removalPass_allDirsDefault :
    ∀ (ns : List String) (dch : List (String × DNode)),
      allDirsDefaultCh dch = true →
      allDirsDefaultCh (removalPass ns dch).1 = true := by
  intro ns dch
  induction dch with
  | nil => intro h; simpa [removalPass]
  | cons p rest ih =>
    obtain ⟨m, dd⟩ := p
    intro h
    simp only [allDirsDefaultCh, Bool.and_eq_true] at h
    simp only [removalPass]
    by_cases hc : ns.contains m = true
    · simp only [hc, if_true]
      simp [allDirsDefaultCh, h.1, ih h.2]
    · simp only [hc, if_false]
      simp [ih h.2]

theorem ensureDir_dirsDefault (dst : Option DNode)
    (h : allDirsDefaultO dst = true) :
    (ensureDir dst).1 = defaultMeta ∧
      allDirsDefaultCh (ensureDir dst).2.1 = true := by
  cases dst with
  | none => exact ⟨rfl, rfl⟩
  | some d =>
    cases d with
    | ddir m ch =>
      simp only [allDirsDefaultO, allDirsDefaultD, Bool.and_eq_true,
        decide_eq_true_eq] at h
      exact ⟨h.1, h.2⟩
    | dfile c m => exact ⟨rfl, rfl⟩
    | dlink t m => exact ⟨rfl, rfl⟩

theorem syncEntries_dirsDefault (odd : Bool) :
    ∀ (srcCh : List (String × SNode)) (kept : List (String × DNode)),
      allDirsDefaultCh kept = true →
      allDirsDefaultCh (syncEntries odd srcCh kept).1 = true := by
  refine syncEntries.induct odd
    (fun srcCh kept => allDirsDefaultCh kept = true →
      allDirsDefaultCh (syncEntries odd srcCh kept).1 = true)
    (fun s dcur => allDirsDefaultO dcur = true →
      allDirsDefaultO (syncItem odd s dcur).1 = true)
    ?_ ?_ ?_ ?_ ?_ ?_ ?_ ?_ ?_ ?_ ?_
  · -- junction, valid
    intro ch dcur pre rm ih hd
    have hpre := ensureDir_dirsDefault dcur hd
    have hrm : allDirsDefaultCh rm.1 = true :=
      removalPass_allDirsDefault (namesS ch) (ensureDir dcur).2.1 hpre.2
    have hres := ih hrm
    simp only [syncItem, allDirsDefaultO, allDirsDefaultD, Bool.and_eq_true,
      decide_eq_true_eq, if_true]
    refine ⟨?_, ?_⟩
    · simp [hpre.1]
    · exact hres
  · -- junction, invalid
    intro valid ch dcur hv hd
    cases valid with
    | true => exact absurd rfl hv
    | false => simp [syncItem, allDirsDefaultO]
  · -- directory
    intro meta ch dcur pre rm ih hd
    cases dcur with
    | none =>
      simp only [syncItem, allDirsDefaultO, allDirsDefaultD,
        Bool.and_eq_true, decide_eq_true_eq]
      refine ⟨by simp, ?_⟩
      exact ih (removalPass_allDirsDefault (namesS ch) [] rfl)
    | some d =>
      cases d with
      | ddir dm dch =>
        simp only [allDirsDefaultO, allDirsDefaultD, Bool.and_eq_true,
          decide_eq_true_eq] at hd
        simp only [syncItem, allDirsDefaultO, allDirsDefaultD,
          Bool.and_eq_true, decide_eq_true_eq]
        refine ⟨by simpa using hd.1, ?_⟩
        exact ih (removalPass_allDirsDefault (namesS ch) dch hd.2)
      | dfile c m =>
        simp only [syncItem, allDirsDefaultO, allDirsDefaultD,
          Bool.and_eq_true, decide_eq_true_eq]
        refine ⟨by simp, ?_⟩
        exact ih (removalPass_allDirsDefault (namesS ch) [] rfl)
      | dlink t m =>
        simp only [syncItem, allDirsDefaultO, allDirsDefaultD,
          Bool.and_eq_true, decide_eq_true_eq]
        refine ⟨by simp, ?_⟩
        exact ih (removalPass_allDirsDefault (namesS ch) [] rfl)
  · -- regular file
    intro c m dcur hd
    simp [syncItem, allDirsDefaultO, allDirsDefaultD]
  · -- symlink, translated
    intro raw m dcur t hd
    simp [syncItem, allDirsDefaultO, allDirsDefaultD]
  · -- symlink, sentinel
    intro raw m dcur hd
    simp [syncItem, allDirsDefaultO]
  · -- unknown, odd, copy succeeds
    intro m dcur hodd c hd
    simp [syncItem, hodd, allDirsDefaultO, allDirsDefaultD]
  · -- unknown, odd, copy fails
    intro m dcur hodd hd
    simp [syncItem, hodd, allDirsDefaultO]
  · -- unknown, not odd
    intro copyResult m dcur hodd hd
    have hof : odd = false := by
      revert hodd; cases odd <;> simp
    simp [syncItem, hof, allDirsDefaultO]
  · -- nil
    intro kept _
    simp [syncEntries, allDirsDefaultCh]
  · -- cons
    intro n s rest kept ihSome ihNone ihRest hall
    simp only [syncEntries]
    cases hl : lookupD n kept with
    | some d =>
      by_cases hc : compareEntry s d = true
      · simp only [hc, if_true]
        have hd := lookupD_allDirsDefault kept n d hall hl
        simp [allDirsDefaultCh, hd, ihRest hall]
      · simp only [hc, if_false]
        have hd : allDirsDefaultO (some d) = true := by
          simpa [allDirsDefaultO] using lookupD_allDirsDefault kept n d hall hl
        have hstep := ihSome d hd
        cases hres : (syncItem odd s (some d)).1 with
        | some cRes =>
          rw [hres] at hstep
          simp only [allDirsDefaultO] at hstep
          simp [hres, allDirsDefaultCh, hstep, ihRest hall]
        | none =>
          simp [hres, ihRest hall]
    | none =>
      have hstep := ihNone (by simp [allDirsDefaultO])
      cases hres : (syncItem odd s none).1 with
      | some cRes =>
        rw [hres] at hstep
        simp only [allDirsDefaultO] at hstep
        simp [hres, allDirsDefaultCh, hstep, ihRest hall]
      | none =>
        simp [hres, ihRest hall]

/-- C6, amended: after a pass into a fresh replica, every directory in the
replica carries the default `os.mkdir` metadata, whatever metadata the
source directories have — the code never copies metadata onto directories
(only files via `shutil.copy2` and symlinks via `shutil.copystat` get
theirs), so no bottom-up directory stat propagation takes place. -/
theorem C6_amended_no_dir_meta (odd : Bool)
    (srcCh : List (String × SNode)) :
    allDirsDefaultD (syncFolder odd srcCh none).1 = true := by
  simp only [syncFolder, ensureDir, removalPass, allDirsDefaultD,
    Bool.and_eq_true, decide_eq_true_eq]
  exact ⟨trivial, syncEntries_dirsDefault odd srcCh [] rfl⟩

theorem compare_true_mirrors (odd : Bool) :
    ∀ (s : SNode) (d : DNode), compareEntry s d = true →
      presentB odd s = true ∧ nodeMirrorsB odd s d = true := by
  intro s d hc
  cases s with
  | sfile c m =>
    cases d with
    | dfile c' m' =>
      simp only [compareEntry, decide_eq_true_eq, beq_iff_eq] at hc
      subst hc
      simp [presentB, nodeMirrorsB]
    | dlink t m' => simp [compareEntry] at hc
    | ddir dm dch => simp [compareEntry] at hc
  | slink raw tr m =>
    simp only [compareEntry, Bool.and_eq_true, beq_iff_eq] at hc
    obtain ⟨heq, hsome⟩ := hc
    cases tr with
    | none => simp at hsome
    | some t =>
      cases d with
      | dlink t' m' =>
        simp only [readlinkD, Option.some.injEq] at heq
        subst heq
        simp [presentB, nodeMirrorsB]
      | dfile c' m' => simp [readlinkD] at heq
      | ddir dm dch => simp [readlinkD] at heq
  | sdir m ch => simp [compareEntry] at hc
  | sjunction v ch => simp [compareEntry] at hc
  | sother c m => simp [compareEntry] at hc

theorem mirror_file_compare (odd : Bool) (c : String) (m : Nat) (d : DNode)
    (h : nodeMirrorsB odd (SNode.sfile c m) d = true) :
    compareEntry (SNode.sfile c m) d = true := by
  cases d with
  | dfile c' m' =>
    simp only [nodeMirrorsB, decide_eq_true_eq, beq_iff_eq] at h
    simp [compareEntry, h]
  | dlink t m' => simp [nodeMirrorsB] at h
  | ddir dm dch => simp [nodeMirrorsB] at h

theorem mirror_link_compare (odd : Bool) (raw t : List Char) (m : Nat)
    (d : DNode)
    (h : nodeMirrorsB odd (SNode.slink raw (some t) m) d = true) :
    compareEntry (SNode.slink raw (some t) m) d = true := by
  cases d with
  | dlink t' m' =>
    simp only [nodeMirrorsB, decide_eq_true_eq, beq_iff_eq] at h
    simp [compareEntry, readlinkD, h]
  | dfile c' m' => simp [nodeMirrorsB] at h
  | ddir dm dch => simp [nodeMirrorsB] at h

theorem chMirrors_names (odd : Bool) :
    ∀ (srcCh : List (String × SNode)) (dch : List (String × DNode)),
      chMirrorsB odd srcCh dch = true →
      ∀ p ∈ dch, hasNameS p.1 srcCh = true := by
  intro srcCh
  induction srcCh with
  | nil =>
    intro dch h p hp
    cases dch with
    | nil => cases hp
    | cons q dtl => simp [chMirrorsB] at h
  | cons e rest ih =>
    obtain ⟨n, s⟩ := e
    intro dch h p hp
    by_cases hpres : presentB odd s = true
    · cases dch with
      | nil => simp [chMirrorsB, hpres] at h
      | cons q dtl =>
        obtain ⟨n', d⟩ := q
        simp only [chMirrorsB, hpres, if_true, Bool.and_eq_true,
          decide_eq_true_eq] at h
        rcases List.mem_cons.mp hp with hhd | htl
        · subst hhd
          simp only [hasNameS]
          simp [h.1.1]
        · have := ih dtl h.2 p htl
          simp only [hasNameS]
          simp [this]
    · simp only [chMirrorsB, hpres, if_false] at h
      have := ih dch h p hp
      simp only [hasNameS]
      simp [this]

theorem hasName_contains :
    ∀ (l : List (String × SNode)) (n : String),
      hasNameS n l = true → (namesS l).contains n = true := by
  intro l
  induction l with
  | nil => intro n h; simp [hasNameS] at h
  | cons e rest ih =>
    obtain ⟨m, s⟩ := e
    intro n h
    simp only [hasNameS, Bool.or_eq_true, decide_eq_true_eq] at h
    simp only [namesS, List.map_cons, List.contains_cons, Bool.or_eq_true,
      beq_iff_eq]
    rcases h with h | h
    · exact Or.inl h.symm
    · exact Or.inr (by simpa [namesS] using ih n h)

theorem removalPass_id (srcCh : List (String × SNode)) :
    ∀ (dch : List (String × DNode)),
      (∀ p ∈ dch, hasNameS p.1 srcCh = true) →
      removalPass (namesS srcCh) dch = (dch, []) := by
  intro dch
  induction dch with
  | nil => intro _; rfl
  | cons q rest ih =>
    obtain ⟨m, d⟩ := q
    intro h
    have hm : (namesS srcCh).contains m = true :=
      hasName_contains srcCh m (h (m, d) (List.mem_cons_self _ _))
    have hrest := ih (fun p hp => h p (List.mem_cons_of_mem _ hp))
    simp only [removalPass, hm, if_true, hrest]

theorem lookupD_none_of_no_name :
    ∀ (kept : List (String × DNode)) (rest : List (String × SNode))
      (n : String),
      (∀ p ∈ kept, hasNameS p.1 rest = true) →
      hasNameS n rest = false → lookupD n kept = none := by
  intro kept
  induction kept with
  | nil => intro rest n _ _; rfl
  | cons q dtl ih =>
    obtain ⟨m, d⟩ := q
    intro rest n hmem hn
    have hm : hasNameS m rest = true := hmem (m, d) (List.mem_cons_self _ _)
    have hmn : ¬(m = n) := fun he => by rw [he, hn] at hm; cases hm
    simp only [lookupD, if_neg hmn]
    exact ih rest n (fun p hp => hmem p (List.mem_cons_of_mem _ hp)) hn

theorem keptMatches_skip (odd : Bool) :
    ∀ (rest : List (String × SNode)) (n : String) (d : DNode)
      (dtl : List (String × DNode)),
      hasNameS n rest = false →
      keptMatches odd rest ((n, d) :: dtl) = keptMatches odd rest dtl := by
  intro rest
  induction rest with
  | nil => intro n d dtl _; rfl
  | cons e rest2 ih =>
    obtain ⟨m, s⟩ := e
    intro n d dtl hn
    simp only [hasNameS, Bool.or_eq_false_iff, decide_eq_false_iff_not]
      at hn
    have hmn : ¬(n = m) := fun he => hn.1 he.symm
    simp only [keptMatches, lookupD, if_neg hmn, ih n d dtl hn.2]

theorem chMirrors_keptMatches (odd : Bool) :
    ∀ (srcCh : List (String × SNode)) (dch : List (String × DNode)),
      wfCh srcCh = true → chMirrorsB odd srcCh dch = true →
      keptMatches odd srcCh dch = true := by
  intro srcCh
  induction srcCh with
  | nil => intro dch _ _; rfl
  | cons e rest ih =>
    obtain ⟨n, s⟩ := e
    intro dch hwf hm
    simp only [wfCh, Bool.and_eq_true, Bool.not_eq_true'] at hwf
    by_cases hpres : presentB odd s = true
    · cases dch with
      | nil => simp [chMirrorsB, hpres] at hm
      | cons q dtl =>
        obtain ⟨n', d⟩ := q
        simp only [chMirrorsB, hpres, if_true, Bool.and_eq_true,
          decide_eq_true_eq] at hm
        obtain ⟨⟨hn', hmir⟩, hrest⟩ := hm
        subst hn'
        have hlk : lookupD n' ((n', d) :: dtl) = some d := by
          simp [lookupD]
        simp only [keptMatches, hlk, hpres, hmir, Bool.and_eq_true,
          Bool.true_and]
        rw [keptMatches_skip odd rest n' d dtl hwf.1.1]
        exact ih dtl hwf.2 hrest
    · simp only [chMirrorsB, hpres, if_false] at hm
      have hlk : lookupD n dch = none :=
        lookupD_none_of_no_name dch rest n
          (chMirrors_names odd rest dch hm) hwf.1.1
      have hpf : presentB odd s = false := by simpa using hpres
      simp only [keptMatches, hlk, hpf, Bool.not_false, Bool.true_and]
      exact ih dch hwf.2 hm

theorem syncEntries_mirrors (odd : Bool) :
    ∀ (srcCh : List (String × SNode)) (kept : List (String × DNode)),
      chMirrorsB odd srcCh (syncEntries odd srcCh kept).1 = true := by
  refine syncEntries.induct odd
    (fun srcCh kept =>
      chMirrorsB odd srcCh (syncEntries odd srcCh kept).1 = true)
    (fun s dcur => mirrorsO odd s (syncItem odd s dcur).1 = true)
    ?_ ?_ ?_ ?_ ?_ ?_ ?_ ?_ ?_ ?_ ?_
  · -- junction, valid
    intro ch dcur pre rm ih
    simp only [syncItem, mirrorsO, presentB, nodeMirrorsB, Bool.true_and,
      if_true]
    exact ih
  · -- junction, invalid
    intro valid ch dcur hv
    cases valid with
    | true => exact absurd rfl hv
    | false => simp [syncItem, mirrorsO, presentB]
  · -- directory
    intro meta ch dcur pre rm ih
    simp only [syncItem, mirrorsO, presentB, nodeMirrorsB, Bool.true_and]
    exact ih
  · -- regular file
    intro c m dcur
    simp [syncItem, mirrorsO, presentB, nodeMirrorsB]
  · -- symlink, translated
    intro raw m dcur t
    simp [syncItem, mirrorsO, presentB, nodeMirrorsB]
  · -- symlink, sentinel
    intro raw m dcur
    simp [syncItem, mirrorsO, presentB]
  · -- unknown, odd, copy succeeds
    intro m dcur hodd c
    simp [syncItem, hodd, mirrorsO, presentB, nodeMirrorsB]
  · -- unknown, odd, copy fails
    intro m dcur hodd
    simp [syncItem, hodd, mirrorsO, presentB]
  · -- unknown, not odd
    intro copyResult m dcur hodd
    have hof : odd = false := by
      revert hodd; cases odd <;> simp
    simp [syncItem, hof, mirrorsO, presentB]
  · -- nil
    intro kept
    rfl
  · -- cons
    intro n s rest kept ihSome ihNone ihRest
    simp only [syncEntries]
    cases hl : lookupD n kept with
    | some d =>
      dsimp only
      by_cases hc : compareEntry s d = true
      · rw [if_pos hc]
        have hpm := compare_true_mirrors odd s d hc
        simp only [chMirrorsB, hpm.1, if_true, Bool.and_eq_true,
          decide_eq_true_eq]
        exact ⟨⟨trivial, hpm.2⟩, ihRest⟩
      · rw [if_neg hc]
        have hstep : mirrorsO odd s (syncItem odd s (some d)).1 = true :=
          ihSome d
        cases hres : (syncItem odd s (some d)).1 with
        | some cRes =>
          rw [hres] at hstep
          simp only [mirrorsO, Bool.and_eq_true] at hstep
          dsimp only
          simp only [chMirrorsB, hstep.1, if_true, Bool.and_eq_true,
            decide_eq_true_eq]
          exact ⟨⟨trivial, hstep.2⟩, ihRest⟩
        | none =>
          rw [hres] at hstep
          simp only [mirrorsO, Bool.not_eq_true'] at hstep
          dsimp only
          simp only [chMirrorsB, hstep, if_false]
          exact ihRest
    | none =>
      dsimp only
      have hstep : mirrorsO odd s (syncItem odd s none).1 = true := ihNone
      cases hres : (syncItem odd s none).1 with
      | some cRes =>
        rw [hres] at hstep
        simp only [mirrorsO, Bool.and_eq_true] at hstep
        dsimp only
        simp only [chMirrorsB, hstep.1, if_true, Bool.and_eq_true,
          decide_eq_true_eq]
        exact ⟨⟨trivial, hstep.2⟩, ihRest⟩
      | none =>
        rw [hres] at hstep
        simp only [mirrorsO, Bool.not_eq_true'] at hstep
        dsimp only
        simp only [chMirrorsB, hstep, if_false]
        exact ihRest

theorem syncEntries_mirror_silent (odd : Bool) :
    ∀ (srcCh : List (String × SNode)) (kept : List (String × DNode)),
      wfCh srcCh = true → (odd = true → noOtherCh srcCh = true) →
      keptMatches odd srcCh kept = true →
      ((syncEntries odd srcCh kept).2).all notCCR = true := by
  refine syncEntries.induct odd
    (fun srcCh kept => wfCh srcCh = true →
      (odd = true → noOtherCh srcCh = true) →
      keptMatches odd srcCh kept = true →
      ((syncEntries odd srcCh kept).2).all notCCR = true)
    (fun s dcur => wfNode s = true →
      (odd = true → noOtherNode s = true) →
      pass2Hyp odd s dcur = true →
      ((syncItem odd s dcur).2).all notCCR = true)
    ?_ ?_ ?_ ?_ ?_ ?_ ?_ ?_ ?_ ?_ ?_
  · -- junction, valid
    intro ch dcur pre rm ih hwf hno hp
    cases dcur with
    | none => simp [pass2Hyp, presentB] at hp
    | some d =>
      simp only [pass2Hyp, recursiveKind, presentB, Bool.true_and,
        Bool.and_eq_true] at hp
      cases d with
      | dfile c' m' => simp [nodeMirrorsB] at hp
      | dlink t' m' => simp [nodeMirrorsB] at hp
      | ddir dm dch =>
        simp only [nodeMirrorsB] at hp
        simp only [wfNode] at hwf
        have hno' : odd = true → noOtherCh ch = true := fun ho => by
          have := hno ho
          simpa [noOtherNode] using this
        have hrm : removalPass (namesS ch) dch = (dch, []) :=
          removalPass_id ch dch (chMirrors_names odd ch dch hp)
        have h1 : rm.1 = dch := congrArg Prod.fst hrm
        have h2 : rm.2 = ([] : List Event) := congrArg Prod.snd hrm
        have hkm : keptMatches odd ch dch = true :=
          chMirrors_keptMatches odd ch dch hwf hp
        have ihall : ((syncEntries odd ch
            (removalPass (namesS ch) dch).1).2).all notCCR = true :=
          ih hwf hno' (h1 ▸ hkm)
        have h2' : (removalPass (namesS ch) dch).2 = ([] : List Event) :=
          congrArg Prod.snd hrm
        simp only [syncItem, if_true, ensureDir]
        simp [h2', ihall, notCCR]
  · -- junction, invalid
    intro valid ch dcur hv hwf hno hp
    cases valid with
    | true => exact absurd rfl hv
    | false =>
      cases dcur with
      | some d => simp [pass2Hyp, presentB] at hp
      | none => simp [syncItem, notCCR]
  · -- directory
    intro meta ch dcur pre rm ih hwf hno hp
    cases dcur with
    | none => simp [pass2Hyp, presentB] at hp
    | some d =>
      simp only [pass2Hyp, recursiveKind, presentB, Bool.true_and,
        Bool.and_eq_true] at hp
      cases d with
      | dfile c' m' => simp [nodeMirrorsB] at hp
      | dlink t' m' => simp [nodeMirrorsB] at hp
      | ddir dm dch =>
        simp only [nodeMirrorsB] at hp
        simp only [wfNode] at hwf
        have hno' : odd = true → noOtherCh ch = true := fun ho => by
          have := hno ho
          simpa [noOtherNode] using this
        have hrm : removalPass (namesS ch) dch = (dch, []) :=
          removalPass_id ch dch (chMirrors_names odd ch dch hp)
        have h1 : rm.1 = dch := congrArg Prod.fst hrm
        have h2 : rm.2 = ([] : List Event) := congrArg Prod.snd hrm
        have hkm : keptMatches odd ch dch = true :=
          chMirrors_keptMatches odd ch dch hwf hp
        have ihall : ((syncEntries odd ch
            (removalPass (namesS ch) dch).1).2).all notCCR = true :=
          ih hwf hno' (h1 ▸ hkm)
        have h2' : (removalPass (namesS ch) dch).2 = ([] : List Event) :=
          congrArg Prod.snd hrm
        simp only [syncItem]
        simp [h2', ihall, notCCR]
  · -- regular file
    intro c m dcur hwf hno hp
    cases dcur <;> simp [pass2Hyp, recursiveKind, presentB] at hp
  · -- symlink, translated
    intro raw m dcur t hwf hno hp
    cases dcur <;> simp [pass2Hyp, recursiveKind, presentB] at hp
  · -- symlink, sentinel
    intro raw m dcur hwf hno hp
    cases dcur with
    | some d => simp [pass2Hyp, recursiveKind] at hp
    | none => simp [syncItem, notCCR]
  · -- unknown, odd, copy succeeds
    intro m dcur hodd c hwf hno hp
    have := hno hodd
    simp [noOtherNode] at this
  · -- unknown, odd, copy fails
    intro m dcur hodd hwf hno hp
    have := hno hodd
    simp [noOtherNode] at this
  · -- unknown, not odd
    intro copyResult m dcur hodd hwf hno hp
    have hof : odd = false := by
      revert hodd; cases odd <;> simp
    cases dcur with
    | some d => simp [pass2Hyp, recursiveKind] at hp
    | none => simp [syncItem, hof, notCCR]
  · -- nil
    intro kept _ _ _
    rfl
  · -- cons
    intro n s rest kept ihSome ihNone ihRest hwf hno hkm
    simp only [wfCh, Bool.and_eq_true, Bool.not_eq_true'] at hwf
    obtain ⟨⟨hname, hwfs⟩, hwfr⟩ := hwf
    have hnos : odd = true → noOtherNode s = true := fun ho => by
      have := hno ho
      simp only [noOtherCh, Bool.and_eq_true] at this
      exact this.1
    have hnor : odd = true → noOtherCh rest = true := fun ho => by
      have := hno ho
      simp only [noOtherCh, Bool.and_eq_true] at this
      exact this.2
    simp only [keptMatches, Bool.and_eq_true] at hkm
    obtain ⟨hkm1, hkm2⟩ := hkm
    simp only [syncEntries]
    cases hl : lookupD n kept with
    | some d =>
      dsimp only
      rw [hl] at hkm1
      simp only [Bool.and_eq_true] at hkm1
      obtain ⟨hpres, hmir⟩ := hkm1
      by_cases hc : compareEntry s d = true
      · rw [if_pos hc]
        simp only [List.nil_append]
        exact ihRest hwfr hnor hkm2
      · rw [if_neg hc]
        simp only [List.all_append, Bool.and_eq_true]
        refine ⟨?_, ihRest hwfr hnor hkm2⟩
        cases s with
        | sfile c m => exact absurd (mirror_file_compare odd c m d hmir) hc
        | slink raw tr m =>
          cases tr with
          | none => simp [presentB] at hpres
          | some t =>
            exact absurd (mirror_link_compare odd raw t m d hmir) hc
        | sdir m ch =>
          refine ihSome d hwfs hnos ?_
          simp [pass2Hyp, recursiveKind, hpres, hmir]
        | sjunction v ch =>
          refine ihSome d hwfs hnos ?_
          simp [pass2Hyp, recursiveKind, hpres, hmir]
        | sother c m =>
          simp only [presentB, Bool.and_eq_true] at hpres
          have := hnos hpres.1
          simp [noOtherNode] at this
    | none =>
      dsimp only
      rw [hl] at hkm1
      have hp : pass2Hyp odd s none = true := hkm1
      have hstep := ihNone hwfs hnos hp
      simp only [List.all_append, Bool.and_eq_true]
      exact ⟨hstep, ihRest hwfr hnor hkm2⟩

theorem syncFolder_on_mirror (odd : Bool) (srcCh : List (String × SNode))
    (m1 : Nat) (ch1 : List (String × DNode))
    (hwf : wfCh srcCh = true)
    (hodd : odd = true → noOtherCh srcCh = true)
    (hmir : chMirrorsB odd srcCh ch1 = true) :
    ((syncFolder odd srcCh (some (DNode.ddir m1 ch1))).2).all notCCR =
      true := by
  have hrm : removalPass (namesS srcCh) ch1 = (ch1, []) :=
    removalPass_id srcCh ch1 (chMirrors_names odd srcCh ch1 hmir)
  have hsil : ((syncEntries odd srcCh ch1).2).all notCCR = true :=
    syncEntries_mirror_silent odd srcCh ch1 hwf hodd
      (chMirrors_keptMatches odd srcCh ch1 hwf hmir)
  show (([] : List Event) ++ (removalPass (namesS srcCh) ch1).2 ++
      (syncEntries odd srcCh (removalPass (namesS srcCh) ch1).1).2).all
      notCCR = true
  rw [hrm]
  simpa using hsil

/-- C4, amended: for every well-formed source tree (no duplicate names in a
listing) containing no symlink or junction cycles — modelled by fixed
per-entry translation results and junction guard results — and containing
no unknown-kind entries when the unknown-entry policy is attempt-copy, a
second pass immediately after a completed pass emits no Create, Copy or
Remove event: every event of the second pass is a warning or an error
log. -/
theorem C4_amended_second_pass_silent (odd : Bool)
    (srcCh : List (String × SNode)) (dst0 : Option DNode)
    (hwf : wfCh srcCh = true)
    (hodd : odd = true → noOtherCh srcCh = true) :
    ((syncFolder odd srcCh
        (some (syncFolder odd srcCh dst0).1)).2).all notCCR = true := by
  have hmir : chMirrorsB odd srcCh
      (syncEntries odd srcCh
        (removalPass (namesS srcCh) (ensureDir dst0).2.1).1).1 = true :=
    syncEntries_mirrors odd srcCh _
  have hfold : (syncFolder odd srcCh dst0).1 =
      DNode.ddir (ensureDir dst0).1
        (syncEntries odd srcCh
          (removalPass (namesS srcCh) (ensureDir dst0).2.1).1).1 := rfl
  rw [hfold]
  exact syncFolder_on_mirror odd srcCh (ensureDir dst0).1 _ hwf hodd hmir

/-- Witness for C4: a concrete two-entry source tree (a file and an
in-tree symlink), synchronized twice from an empty replica under the skip
policy for unknown entries. -/
theorem C4_amended_second_pass_silent_witness :
    wfCh [("a", SNode.sfile "x" 1),
      ("l", SNode.slink (s2l "t") (some (s2l "t")) 2)] = true ∧
    ((syncFolder false [("a", SNode.sfile "x" 1),
        ("l", SNode.slink (s2l "t") (some (s2l "t")) 2)]
        (some (syncFolder false [("a", SNode.sfile "x" 1),
          ("l", SNode.slink (s2l "t") (some (s2l "t")) 2)] none).1)).2).all
      notCCR = true :=
  ⟨by decide,
   C4_amended_second_pass_silent false
     [("a", SNode.sfile "x" 1),
      ("l", SNode.slink (s2l "t") (some (s2l "t")) 2)] none
     (by decide) (by decide)⟩

theorem markerIdx_append :
    ∀ (A r : List Char), cleanA A = true →
      markerIdx (A ++ '/' :: '.' :: '/' :: r) = some A.length := by
  intro A
  induction A with
  | nil => intro r _; simp [markerIdx, isMarkerHead]
  | cons c A' ih =>
    intro r h
    simp only [cleanA, Bool.and_eq_true, Bool.not_eq_true'] at h
    obtain ⟨⟨hm, hne⟩, hcl⟩ := h
    have hmh : isMarkerHead (c :: (A' ++ '/' :: '.' :: '/' :: r)) =
        false := by
      cases A' with
      | nil => simp [isMarkerHead]
      | cons d A'' =>
        cases A'' with
        | nil =>
          simp only [isMarkerHead, List.cons_append, List.nil_append]
          by_cases hc1 : c = '/'
          · by_cases hd1 : d = '.'
            · exfalso
              rw [hc1, hd1] at hne
              simp at hne
            · simp [hd1]
          · simp [hc1]
        | cons e tl =>
          simpa [isMarkerHead] using hm
    rw [List.cons_append, markerIdx, if_neg (by simp [hmh]), ih r hcl]
    rfl

theorem drop_append_marker (A r : List Char) :
    (A ++ '/' :: '.' :: '/' :: r).drop (A.length + 3) = r := by
  have h1 : A ++ '/' :: '.' :: '/' :: r = (A ++ ['/', '.', '/']) ++ r := by
    simp
  have h2 : A.length + 3 = (A ++ ['/', '.', '/']).length := by simp
  rw [h1, h2, List.drop_left]

theorem detranslate_append_marker (A r : List Char)
    (h : cleanA A = true) :
    detranslateL (A ++ '/' :: '.' :: '/' :: r) = some r := by
  simp [detranslateL, markerIdx_append A r h, drop_append_marker]

theorem getLast?_not_mem :
    ∀ (l : List Char) (x : Char), x ∉ l → l.getLast? ≠ some x := by
  intro l
  induction l with
  | nil => intro x _ hcon; cases hcon
  | cons a tl ih =>
    intro x hx
    cases tl with
    | nil =>
      simp only [List.getLast?_singleton]
      intro hcon
      injection hcon with hcon
      exact hx (hcon ▸ List.mem_cons_self _ _)
    | cons b tl2 =>
      rw [List.getLast?_cons_cons]
      exact ih x (fun hm => hx (List.mem_cons_of_mem _ hm))

theorem splitSlash_no_slash :
    ∀ (l : List Char), ∀ g ∈ splitSlash l, '/' ∉ g := by
  intro l
  induction l with
  | nil =>
    intro g hg
    simp only [splitSlash, List.mem_singleton] at hg
    simp [hg]
  | cons c rest ih =>
    intro g hg
    simp only [splitSlash] at hg
    by_cases hc : c = '/'
    · rw [if_pos hc] at hg
      rcases List.mem_cons.mp hg with h1 | h1
      · simp [h1]
      · exact ih g h1
    · rw [if_neg hc] at hg
      cases hs : splitSlash rest with
      | nil =>
        rw [hs] at hg
        simp only [List.mem_singleton] at hg
        subst hg
        intro hm
        rcases List.mem_cons.mp hm with h1 | h1
        · exact hc h1.symm
        · cases h1
      | cons g0 gs =>
        rw [hs] at hg
        rcases List.mem_cons.mp hg with h1 | h1
        · subst h1
          intro hm
          rcases List.mem_cons.mp hm with h2 | h2
          · exact hc h2.symm
          · exact ih g0 (hs ▸ List.mem_cons_self _ _) h2
        · exact ih g (hs ▸ List.mem_cons_of_mem _ h1)

theorem normStep_good (k : Nat) :
    ∀ (comps : List (List Char)) (acc : List (List Char)),
      (∀ g ∈ comps, '/' ∉ g) →
      (∀ g ∈ acc, g ≠ [] ∧ g ≠ ['.'] ∧ '/' ∉ g) →
      ∀ g ∈ comps.foldl (normStep k) acc,
        g ≠ [] ∧ g ≠ ['.'] ∧ '/' ∉ g := by
  intro comps
  induction comps with
  | nil => intro acc _ hacc g hg; exact hacc g hg
  | cons comp rest ih =>
    intro acc hcomps hacc g hg
    simp only [List.foldl_cons] at hg
    refine ih (normStep k acc comp)
      (fun g2 hg2 => hcomps g2 (List.mem_cons_of_mem _ hg2)) ?_ g hg
    intro g2 hg2
    unfold normStep at hg2
    by_cases h1 : comp = [] ∨ comp = ['.']
    · rw [if_pos h1] at hg2
      exact hacc g2 hg2
    · rw [if_neg h1] at hg2
      push_neg at h1
      by_cases h2 : ¬(comp = s2l "..") ∨ (k = 0 ∧ acc = []) ∨
          (¬(acc = []) ∧ acc.getLast? = some (s2l ".."))
      · rw [if_pos h2] at hg2
        rcases List.mem_append.mp hg2 with h3 | h3
        · exact hacc g2 h3
        · simp only [List.mem_singleton] at h3
          rw [h3]
          exact ⟨h1.1, h1.2, hcomps comp (List.mem_cons_self _ _)⟩
      · rw [if_neg h2] at hg2
        by_cases h3 : ¬(acc = [])
        · rw [if_pos h3] at hg2
          exact hacc g2 (List.dropLast_subset _ hg2)
        · rw [if_neg h3] at hg2
          exact hacc g2 hg2

theorem isMarkerHead_ne_slash (a : Char) (t : List Char) (h : ¬(a = '/')) :
    isMarkerHead (a :: t) = false := by
  cases t with
  | nil => rfl
  | cons b t2 =>
    cases t2 with
    | nil => rfl
    | cons e t3 => simp [isMarkerHead, h]

theorem cons_beq_slashdot (a : Char) (t : List Char) (h : ¬(a = '/')) :
    ((a :: t) == ['/', '.']) = false := by
  cases t with
  | nil => simp [h]
  | cons b t2 => simp [h]

theorem cleanA_of_no_slash :
    ∀ (c : List Char), '/' ∉ c → cleanA c = true := by
  intro c
  induction c with
  | nil => intro _; rfl
  | cons a c' ih =>
    intro h
    have ha : ¬(a = '/') := fun he => h (he ▸ List.mem_cons_self _ _)
    have h' : '/' ∉ c' := fun hm => h (List.mem_cons_of_mem _ hm)
    simp only [cleanA, Bool.and_eq_true, Bool.not_eq_true']
    exact ⟨⟨isMarkerHead_ne_slash a c' ha, cons_beq_slashdot a c' ha⟩,
      ih h'⟩

theorem isMarkerHead_slash (t : List Char) (h : startsDotSlash t = false) :
    isMarkerHead ('/' :: t) = false := by
  cases t with
  | nil => rfl
  | cons b t2 =>
    cases t2 with
    | nil => rfl
    | cons e t3 =>
      simp only [startsDotSlash] at h
      simpa [isMarkerHead] using h

theorem cleanA_slash (J : List Char) (h1 : cleanA J = true)
    (h2 : startsDotSlash J = false) (h3 : ¬(J = ['.'])) :
    cleanA ('/' :: J) = true := by
  simp only [cleanA, Bool.and_eq_true, Bool.not_eq_true']
  refine ⟨⟨isMarkerHead_slash J h2, ?_⟩, h1⟩
  cases J with
  | nil => rfl
  | cons a t =>
    simp [h3]
    intro ha ht
    exact h3 (by rw [ha, ht])

theorem cleanA_comp_append :
    ∀ (c t : List Char), '/' ∉ c → cleanA ('/' :: t) = true →
      cleanA (c ++ '/' :: t) = true := by
  intro c
  induction c with
  | nil => intro t _ h; exact h
  | cons a c' ih =>
    intro t h hsl
    have ha : ¬(a = '/') := fun he => h (he ▸ List.mem_cons_self _ _)
    have h' : '/' ∉ c' := fun hm => h (List.mem_cons_of_mem _ hm)
    rw [List.cons_append]
    simp only [cleanA, Bool.and_eq_true, Bool.not_eq_true']
    exact ⟨⟨isMarkerHead_ne_slash a _ ha, cons_beq_slashdot a _ ha⟩,
      ih t h' hsl⟩

theorem joinComps_bundle :
    ∀ (comps : List (List Char)),
      (∀ g ∈ comps, g ≠ [] ∧ g ≠ ['.'] ∧ '/' ∉ g) → ¬(comps = []) →
      cleanA (joinComps comps) = true ∧
      startsDotSlash (joinComps comps) = false ∧
      ¬(joinComps comps = ['.']) ∧
      ¬(joinComps comps = []) ∧
      (joinComps comps).getLast? ≠ some '/' := by
  intro comps
  induction comps with
  | nil => intro _ hne; exact absurd rfl hne
  | cons c rest ih =>
    intro hg _
    have hc := hg c (List.mem_cons_self _ _)
    cases rest with
    | nil =>
      refine ⟨cleanA_of_no_slash c hc.2.2, ?_, hc.2.1, hc.1,
        getLast?_not_mem c '/' hc.2.2⟩
      cases c with
      | nil => rfl
      | cons a c' =>
        cases c' with
        | nil => rfl
        | cons b c'' =>
          have hb : ¬(b = '/') := fun he =>
            hc.2.2 (he ▸ List.mem_cons_of_mem _ (List.mem_cons_self _ _))
          simp [joinComps, startsDotSlash, hb]
    | cons c2 rest2 =>
      have hrest : ∀ g ∈ c2 :: rest2, g ≠ [] ∧ g ≠ ['.'] ∧ '/' ∉ g :=
        fun g hgm => hg g (List.mem_cons_of_mem _ hgm)
      obtain ⟨hcl2, hsd2, hnd2, hnn2, hgl2⟩ := ih hrest (by simp)
      have hJ : joinComps (c :: c2 :: rest2) =
          c ++ '/' :: joinComps (c2 :: rest2) := rfl
      rw [hJ]
      have hslash : cleanA ('/' :: joinComps (c2 :: rest2)) = true :=
        cleanA_slash _ hcl2 hsd2 hnd2
      refine ⟨cleanA_comp_append c _ hc.2.2 hslash, ?_, ?_, ?_, ?_⟩
      · -- startsDotSlash (c ++ '/' :: J2) = false
        cases hcc : c with
        | nil => exact absurd hcc hc.1
        | cons a c' =>
          cases c' with
          | nil =>
            have ha : ¬(a = '.') := by
              intro he
              exact hc.2.1 (by rw [hcc, he])
            simp [joinComps, startsDotSlash, ha]
          | cons b c'' =>
            have hb : ¬(b = '/') := by
              intro he
              apply hc.2.2
              rw [hcc, he]
              exact List.mem_cons_of_mem _ (List.mem_cons_self _ _)
            simp [joinComps, startsDotSlash, hb]
      · -- ≠ ['.']
        intro he
        have hclen : 0 < c.length := List.length_pos.mpr hc.1
        have := congrArg List.length he
        simp at this
        omega
      · -- ≠ []
        intro he
        have := congrArg List.length he
        simp at this
      · -- getLast? ≠ some '/'
        rw [List.getLast?_append_cons]
        cases hJ2 : joinComps (c2 :: rest2) with
        | nil => exact absurd hJ2 hnn2
        | cons x xs =>
          rw [List.getLast?_cons_cons, ← hJ2]
          exact hgl2

theorem normpath_core (k : Nat) (comps : List (List Char))
    (hg : ∀ g ∈ comps, g ≠ [] ∧ g ≠ ['.'] ∧ '/' ∉ g)
    (hk : k = 1 ∨ k = 2) :
    cleanA (List.replicate k '/' ++ joinComps comps) = true ∧
    ¬(List.replicate k '/' ++ joinComps comps = []) ∧
    ((List.replicate k '/' ++ joinComps comps).getLast? = some '/' →
      List.replicate k '/' ++ joinComps comps = ['/'] ∨
      List.replicate k '/' ++ joinComps comps = ['/', '/']) := by
  by_cases hcomps : comps = []
  · subst hcomps
    rcases hk with rfl | rfl
    · exact ⟨by decide, by decide, fun _ => Or.inl (by decide)⟩
    · exact ⟨by decide, by decide, fun _ => Or.inr (by decide)⟩
  · obtain ⟨hcl, hsd, hnd, hnn, hgl⟩ := joinComps_bundle comps hg hcomps
    rcases hk with rfl | rfl
    · have hA : List.replicate 1 '/' ++ joinComps comps =
          '/' :: joinComps comps := rfl
      rw [hA]
      refine ⟨cleanA_slash _ hcl hsd hnd, by simp, ?_⟩
      intro hlast
      exfalso
      cases hJ : joinComps comps with
      | nil => exact hnn hJ
      | cons x xs =>
        rw [hJ, List.getLast?_cons_cons] at hlast
        exact hgl (by rw [hJ]; exact hlast)
    · have hA : List.replicate 2 '/' ++ joinComps comps =
          '/' :: '/' :: joinComps comps := rfl
      rw [hA]
      have h1 : cleanA ('/' :: joinComps comps) = true :=
        cleanA_slash _ hcl hsd hnd
      have h2 : startsDotSlash ('/' :: joinComps comps) = false := by
        cases joinComps comps <;> simp [startsDotSlash]
      have h3 : ¬('/' :: joinComps comps = ['.']) := by simp
      refine ⟨cleanA_slash _ h1 h2 h3, by simp, ?_⟩
      intro hlast
      exfalso
      rw [List.getLast?_cons_cons] at hlast
      cases hJ : joinComps comps with
      | nil => exact hnn hJ
      | cons x xs =>
        rw [hJ, List.getLast?_cons_cons] at hlast
        exact hgl (by rw [hJ]; exact hlast)

theorem pjoin_abs (a b : List Char) (ha : isAbs a = true) :
    isAbs (pjoin a b) = true := by
  unfold pjoin
  by_cases hb : isAbs b = true
  · rw [if_pos hb]; exact hb
  · rw [if_neg hb]
    cases a with
    | nil => simp [isAbs] at ha
    | cons x a' =>
      have hx : x = '/' := by simpa [isAbs] using ha
      subst hx
      by_cases h2 : ('/' : Char) :: a' = [] ∨
          (('/' : Char) :: a').getLast? = some '/'
      · rw [if_pos h2]; simp [isAbs]
      · rw [if_neg h2]; simp [isAbs]

theorem normpath_abs_shape (q : List Char) (hq : isAbs q = true) :
    cleanA (normpathL q) = true ∧ ¬(normpathL q = []) ∧
    ((normpathL q).getLast? = some '/' →
      normpathL q = ['/'] ∨ normpathL q = ['/', '/']) := by
  obtain ⟨a, q', rfl⟩ : ∃ a q', q = a :: q' := by
    cases q with
    | nil => simp [isAbs] at hq
    | cons a q' => exact ⟨a, q', rfl⟩
  have hx : a = '/' := by simpa [isAbs] using hq
  subst hx
  have hqne : ¬(('/' : Char) :: q' = []) := by simp
  have hgood : ∀ g ∈ (splitSlash (('/' : Char) :: q')).foldl
      (normStep 1) [], g ≠ [] ∧ g ≠ ['.'] ∧ '/' ∉ g :=
    normStep_good 1 _ [] (splitSlash_no_slash _)
      (fun g hg => absurd hg (List.not_mem_nil g))
  have hgood2 : ∀ g ∈ (splitSlash (('/' : Char) :: q')).foldl
      (normStep 2) [], g ≠ [] ∧ g ≠ ['.'] ∧ '/' ∉ g :=
    normStep_good 2 _ [] (splitSlash_no_slash _)
      (fun g hg => absurd hg (List.not_mem_nil g))
  unfold normpathL
  rw [if_neg hqne]
  by_cases hss : leadsAny (s2l "//") (('/' : Char) :: q') = true ∧
      ¬(leadsAny (s2l "///") (('/' : Char) :: q') = true)
  · rw [if_pos hss]
    dsimp only
    rw [if_neg (by simp : ¬(List.replicate 2 '/' ++
      joinComps ((splitSlash (('/' : Char) :: q')).foldl (normStep 2) []) =
        []))]
    exact normpath_core 2 _ hgood2 (Or.inr rfl)
  · rw [if_neg hss]
    have hs1 : leadsAny (s2l "/") (('/' : Char) :: q') = true := by
      rw [show s2l "/" = ['/'] from rfl]
      simp [leadsAny]
    rw [if_pos hs1]
    dsimp only
    rw [if_neg (by simp : ¬(List.replicate 1 '/' ++
      joinComps ((splitSlash (('/' : Char) :: q')).foldl (normStep 1) []) =
        []))]
    exact normpath_core 1 _ hgood (Or.inl rfl)

/-- C8, amended: for every raw symlink target that is a relative path
(does not begin with '/'), detranslation of the synthesized outside-source
target returns exactly the original raw target: the directory prefix is
`os.path.abspath` output — normalized and absolute (the working directory
is absolute), hence free of `"/./"` — so the inserted marker is the first
occurrence the detranslator finds.  (For an absolute raw target,
`os.path.join` discards the prefix and the marker is never inserted — see
the counterexample.) -/
theorem C8_amended_roundtrip (cwd src raw : List Char)
    (hcwd : isAbs cwd = true) (hraw : isAbs raw = false) :
    detranslateL (targetAbsNonNormal cwd src raw) = some raw := by
  have hA : cleanA (abspathL cwd src) = true ∧ ¬(abspathL cwd src = []) ∧
      ((abspathL cwd src).getLast? = some '/' →
        abspathL cwd src = ['/'] ∨ abspathL cwd src = ['/', '/']) := by
    unfold abspathL
    by_cases hs : isAbs src = true
    · rw [if_pos hs]
      exact normpath_abs_shape src hs
    · rw [if_neg hs]
      exact normpath_abs_shape _ (pjoin_abs cwd src hcwd)
  obtain ⟨hclean, hne, hlast⟩ := hA
  have hnabs : ¬(isAbs raw = true) := by simp [hraw]
  unfold targetAbsNonNormal
  by_cases hsl : (abspathL cwd src).getLast? = some '/'
  · rcases hlast hsl with h1 | h1 <;> rw [h1]
    · have hd : pjoin ['/'] (s2l ".") = ['/', '.'] := by decide
      have h2 : pjoin ['/', '.'] raw =
          ('/' : Char) :: '.' :: '/' :: raw := by
        unfold pjoin
        rw [if_neg hnabs]
        rw [if_neg (by decide : ¬((['/', '.'] : List Char) = [] ∨
          (['/', '.'] : List Char).getLast? = some '/'))]
        rfl
      rw [hd, h2]
      exact detranslate_append_marker [] raw rfl
    · have hd : pjoin ['/', '/'] (s2l ".") = ['/', '/', '.'] := by decide
      have h2 : pjoin ['/', '/', '.'] raw =
          ('/' : Char) :: '/' :: '.' :: '/' :: raw := by
        unfold pjoin
        rw [if_neg hnabs]
        rw [if_neg (by decide : ¬((['/', '/', '.'] : List Char) = [] ∨
          (['/', '/', '.'] : List Char).getLast? = some '/'))]
        rfl
      rw [hd, h2]
      exact detranslate_append_marker ['/'] raw (by decide)
  · have hdot : pjoin (abspathL cwd src) (s2l ".") =
        abspathL cwd src ++ ['/', '.'] := by
      unfold pjoin
      rw [if_neg (by decide : ¬(isAbs (s2l ".") = true))]
      rw [if_neg (by
        intro hor
        rcases hor with h | h
        · exact hne h
        · exact hsl h)]
      rfl
    rw [hdot]
    have hstep : pjoin (abspathL cwd src ++ ['/', '.']) raw =
        abspathL cwd src ++ '/' :: '.' :: '/' :: raw := by
      unfold pjoin
      rw [if_neg hnabs]
      rw [if_neg (by
        intro hor
        rcases hor with h | h
        · simp at h
        · rw [List.getLast?_append_cons] at h
          simp at h)]
      rw [List.append_assoc]
      rfl
    rw [hstep]
    exact detranslate_append_marker _ raw hclean

/-- Witness for C8: working directory "/c", link directory "/s/t", raw
relative target "a/b". -/
theorem C8_amended_roundtrip_witness :
    isAbs (s2l "/c") = true ∧ isAbs (s2l "a/b") = false ∧
    detranslateL (targetAbsNonNormal (s2l "/c") (s2l "/s/t")
      (s2l "a/b")) = some (s2l "a/b") :=
  ⟨by decide, by decide,
   C8_amended_roundtrip (s2l "/c") (s2l "/s/t") (s2l "a/b") (by decide)
     (by decide)⟩

/-- C8, counterexample: a symlink with the absolute raw target "/x" whose
existing canonical target "/x" lies outside the source root "/s" is
translated by the outside-source branch, but `os.path.join` resets at an
absolute component, so the synthesized path is "/x" itself — it contains no
marker, and detranslation raises (returns no result) instead of recovering
the raw target. -/
theorem C8_counterexample_absolute_target :
    getSymlinkTargetPath false (s2l "/s") lexAll (s2l "/c") (s2l "/x")
        (s2l "/x") (s2l "/s") =
      some (targetAbsNonNormal (s2l "/c") (s2l "/s") (s2l "/x")) ∧
    targetAbsNonNormal (s2l "/c") (s2l "/s") (s2l "/x") = s2l "/x" ∧
    detranslateL (targetAbsNonNormal (s2l "/c") (s2l "/s") (s2l "/x")) =
      none := by
  decide
